import Mathlib

/-!
Verification development for the social-media scheduling engine in
`backend/automation_stack/social_media/enhanced_manager.py` and the
Twitter rate limiter in
`backend/automation_stack/social_media/platforms/twitter.py`.

The Python code is shallowly embedded: the `Post` dataclass, its
`to_dict`/`from_dict` serialization, the manager's `schedule_post`,
`_process_post`, `cancel_post`, `_save_posts`/`_load_posts`,
`register_callback`/`_trigger_callback` methods and the Twitter
`_rate_limit` method become Lean functions; the manager's mutable state
becomes an explicit state record threaded through the operations.
Wall-clock instants are modelled as natural numbers (seconds); the
calendar `datetime` values used by serialization are modelled by the
`DateTime` structure together with a faithful implementation of the
fixed-width ISO-8601 rendering that `datetime.isoformat` produces and
that `datetime.fromisoformat` parses.
-/

/-- Status of a social media post, mirroring the `PostStatus` enum
(`DRAFT`, `SCHEDULED`, `POSTING`, `POSTED`, `FAILED`, `CANCELLED`). -/
inductive PostStatus where
  | draft
  | scheduled
  | posting
  | posted
  | failed
  | cancelled
deriving DecidableEq, Repr

/-- The Python enum member name, as stored by `Post.to_dict`
(`result['status'] = self.status.name`). -/
def PostStatus.pyName : PostStatus → String
  | .draft => "DRAFT"
  | .scheduled => "SCHEDULED"
  | .posting => "POSTING"
  | .posted => "POSTED"
  | .failed => "FAILED"
  | .cancelled => "CANCELLED"

/-- Lookup of a `PostStatus` by enum member name, mirroring
`PostStatus[data['status']]` in `Post.from_dict`; an unknown name raises
`KeyError`, modelled by `none`. -/
def PostStatus.ofName (s : String) : Option PostStatus :=
  if s = "DRAFT" then some .draft
  else if s = "SCHEDULED" then some .scheduled
  else if s = "POSTING" then some .posting
  else if s = "POSTED" then some .posted
  else if s = "FAILED" then some .failed
  else if s = "CANCELLED" then some .cancelled
  else none

/-- Whether a status is terminal (`Posted`, `Failed`, `Cancelled`). -/
def PostStatus.isTerminal : PostStatus → Bool
  | .posted => true
  | .failed => true
  | .cancelled => true
  | _ => false

/-- A Python `datetime.datetime` value (naive, no timezone), as used for
`scheduled_time`, `created_at` and `updated_at` in the `Post` dataclass. -/
structure DateTime where
  year : Nat
  month : Nat
  day : Nat
  hour : Nat
  minute : Nat
  second : Nat
  microsecond : Nat
deriving DecidableEq, Repr

/-- The field bounds enforced by the `datetime.datetime` constructor:
`1 <= year <= 9999`, `1 <= month <= 12`, `1 <= day <= 31`,
`0 <= hour <= 23`, `0 <= minute <= 59`, `0 <= second <= 59`,
`0 <= microsecond <= 999999`. -/
def DateTime.valid (d : DateTime) : Prop :=
  1 ≤ d.year ∧ d.year ≤ 9999 ∧ 1 ≤ d.month ∧ d.month ≤ 12 ∧
  1 ≤ d.day ∧ d.day ≤ 31 ∧ d.hour ≤ 23 ∧ d.minute ≤ 59 ∧
  d.second ≤ 59 ∧ d.microsecond ≤ 999999

instance (d : DateTime) : Decidable d.valid := by
  unfold DateTime.valid; infer_instance

/-- The decimal digit character for a digit value `0..9`. -/
def digitChar (d : Nat) : Char := Char.ofNat (48 + d)

/-- Zero-padded fixed-width decimal rendering (most significant digit
first), as produced by `datetime.isoformat` for each numeric field. -/
def padNum : Nat → Nat → List Char
  | 0, _ => []
  | w + 1, n => digitChar (n / 10 ^ w) :: padNum w (n % 10 ^ w)

/-- Reads exactly `w` decimal digits from the front of a character list,
accumulating into `acc`; fails on a non-digit or a too-short input. -/
def readFixed : Nat → Nat → List Char → Option (Nat × List Char)
  | 0, acc, cs => some (acc, cs)
  | _ + 1, _, [] => none
  | w + 1, acc, c :: cs =>
      if c.isDigit then readFixed w (10 * acc + (c.toNat - 48)) cs else none

/-- Consumes one expected separator character. -/
def expectChar (e : Char) : List Char → Option (List Char)
  | [] => none
  | c :: cs => if c = e then some cs else none

/-- The character sequence produced by `datetime.isoformat()`:
`YYYY-MM-DDTHH:MM:SS`, followed by `.ffffff` exactly when the
microsecond field is nonzero. -/
def isoformatChars (d : DateTime) : List Char :=
  padNum 4 d.year ++ '-' ::
  (padNum 2 d.month ++ '-' ::
  (padNum 2 d.day ++ 'T' ::
  (padNum 2 d.hour ++ ':' ::
  (padNum 2 d.minute ++ ':' ::
  (padNum 2 d.second ++
    (if d.microsecond = 0 then [] else '.' :: padNum 6 d.microsecond))))))

/-- Python `datetime.isoformat()` for a naive datetime. -/
def DateTime.isoformat (d : DateTime) : String := ⟨isoformatChars d⟩

/-- Parser for the fixed-width `YYYY-MM-DDTHH:MM:SS[.ffffff]` forms that
`isoformat` emits; models `datetime.fromisoformat` on that range, with a
parse failure (Python `ValueError`) modelled by `none`. -/
def parseIsoChars (cs : List Char) : Option DateTime := do
  let (y, cs) ← readFixed 4 0 cs
  let cs ← expectChar '-' cs
  let (mo, cs) ← readFixed 2 0 cs
  let cs ← expectChar '-' cs
  let (dy, cs) ← readFixed 2 0 cs
  let cs ← expectChar 'T' cs
  let (h, cs) ← readFixed 2 0 cs
  let cs ← expectChar ':' cs
  let (mi, cs) ← readFixed 2 0 cs
  let cs ← expectChar ':' cs
  let (s, cs) ← readFixed 2 0 cs
  match cs with
  | [] => some ⟨y, mo, dy, h, mi, s, 0⟩
  | c :: rest =>
      if c = '.' then
        match readFixed 6 0 rest with
        | some (us, []) => some ⟨y, mo, dy, h, mi, s, us⟩
        | _ => none
      else none

/-- Python `datetime.fromisoformat` on the output range of `isoformat`. -/
def DateTime.fromisoformat (s : String) : Option DateTime :=
  parseIsoChars s.data

/-- The `Post` dataclass of `enhanced_manager.py`, with its field order.
The time type is a parameter: `DateTime` for the serialization layer,
`Nat` (an abstract instant) for the manager dynamics. Python's
`Dict[str, Any]` metadata bag is modelled as a string association list. -/
structure Post (T : Type) where
  platform : String
  content_path : String
  caption : String
  scheduled_time : T
  status : PostStatus
  post_id : Option String
  post_url : Option String
  error : Option String
  created_at : T
  updated_at : T
  metadata : List (String × String)
deriving DecidableEq, Repr

/-- The Python dictionary produced by `Post.to_dict`: status replaced by
its enum name, the three datetime fields replaced by their `isoformat`
strings, all other values carried over by `asdict`. -/
structure PostDict where
  platform : String
  content_path : String
  caption : String
  scheduled_time : String
  status : String
  post_id : Option String
  post_url : Option String
  error : Option String
  created_at : String
  updated_at : String
  metadata : List (String × String)
deriving DecidableEq, Repr

/-- Embedding of `Post.to_dict`. -/
def Post.to_dict (p : Post DateTime) : PostDict :=
  { platform := p.platform
    content_path := p.content_path
    caption := p.caption
    scheduled_time := p.scheduled_time.isoformat
    status := p.status.pyName
    post_id := p.post_id
    post_url := p.post_url
    error := p.error
    created_at := p.created_at.isoformat
    updated_at := p.updated_at.isoformat
    metadata := p.metadata }

/-- Embedding of `Post.from_dict`: the three timestamp strings are parsed
back with `fromisoformat` and the status name with `PostStatus[...]`;
a failure of either (Python `ValueError`/`KeyError`) is `none`. -/
def Post.from_dict (d : PostDict) : Option (Post DateTime) := do
  let st ← DateTime.fromisoformat d.scheduled_time
  let ca ← DateTime.fromisoformat d.created_at
  let ua ← DateTime.fromisoformat d.updated_at
  let stat ← PostStatus.ofName d.status
  some ⟨d.platform, d.content_path, d.caption, st, stat, d.post_id,
        d.post_url, d.error, ca, ua, d.metadata⟩

/-- A concrete post used to witness the round-trip theorem. -/
def examplePost : Post DateTime :=
  { platform := "twitter"
    content_path := "path/to/image.jpg"
    caption := "Hello from EnhancedSocialMediaManager! #test"
    scheduled_time := ⟨2026, 10, 12, 9, 5, 0, 0⟩
    status := .scheduled
    post_id := none
    post_url := none
    error := none
    created_at := ⟨2026, 10, 12, 9, 0, 0, 123456⟩
    updated_at := ⟨2026, 10, 12, 9, 0, 0, 123456⟩
    metadata := [("media_alt_text", "Test image")] }

/-- Python `str.lower()` (ASCII case folding suffices for the platform
names used by the manager). -/
def pyLower (s : String) : String := ⟨s.data.map Char.toLower⟩

/-- A key of the manager's `scheduled_posts` dictionary. In the code keys
are strings: `str(id(post))` for posts entered by `schedule_post` (a
fresh CPython object id, modelled by the `addr` injection from a fresh
allocator counter), or `post.post_id` for posts re-keyed by
`_load_posts`; the two injections are kept explicit as a sum. -/
inductive PKey where
  | addr (n : Nat)
  | ext (s : String)
deriving DecidableEq, Repr

/-- Python dictionary lookup on an insertion-ordered association list. -/
def dictGet {α : Type} (l : List (PKey × α)) (k : PKey) : Option α :=
  match l with
  | [] => none
  | (k', v) :: rest => if k' = k then some v else dictGet rest k

/-- Python dictionary assignment `d[k] = v`: updates the existing entry
in place or appends a new one, preserving insertion order. -/
def dictSet {α : Type} (l : List (PKey × α)) (k : PKey) (v : α) : List (PKey × α) :=
  match l with
  | [] => [(k, v)]
  | (k', v') :: rest => if k' = k then (k, v) :: rest else (k', v') :: dictSet rest k v

/-- The mutable state of an `EnhancedSocialMediaManager`: the registered
platform names (`self.platforms`), the `scheduled_posts` dictionary, and
a fresh-address allocator modelling CPython object identity (an id is
unique among live objects, and the manager keeps every post alive in
`scheduled_posts`). -/
structure ManagerState where
  platforms : List String
  scheduled_posts : List (PKey × Post Nat)
  nextAddr : Nat
deriving DecidableEq, Repr

/-- Lifecycle events delivered through `_trigger_callback` by the
scheduling and processing paths. -/
inductive Event where
  | post_scheduled
  | post_started
  | post_completed
  | post_failed
deriving DecidableEq, Repr

/-- An injective linearisation of a calendar datetime onto the abstract
`Nat` timeline used by the manager dynamics (order-preserving on valid
datetimes). -/
def DateTime.linear (d : DateTime) : Nat :=
  (((((d.year * 13 + d.month) * 32 + d.day) * 24 + d.hour) * 60 + d.minute) * 60
    + d.second) * 1000000 + d.microsecond

/-- Parsing of a `post_time` string argument (`datetime.fromisoformat`)
onto the abstract timeline; `none` models the Python `ValueError`. -/
def parseIsoInstant (s : String) : Option Nat :=
  (DateTime.fromisoformat s).map DateTime.linear

/-- The `post_time` argument of `schedule_post`:
`Optional[Union[datetime, str]]`. -/
inductive TimeArg where
  | absent
  | dt (t : Nat)
  | iso (s : String)
deriving DecidableEq, Repr

/-- The `timedelta(minutes=5)` grace interval used when `post_time` is
omitted, on the seconds timeline. -/
def graceInterval : Nat := 5 * 60

instance {e a : Type} [DecidableEq e] [DecidableEq a] : DecidableEq (Except e a) :=
  fun x y =>
    match x, y with
    | .ok u, .ok v =>
        match decEq u v with
        | isTrue h => isTrue (by rw [h])
        | isFalse h => isFalse (by intro hc; cases hc; exact h rfl)
    | .error u, .error v =>
        match decEq u v with
        | isTrue h => isTrue (by rw [h])
        | isFalse h => isFalse (by intro hc; cases hc; exact h rfl)
    | .ok u, .error v => isFalse (by intro hc; cases hc)
    | .error u, .ok v => isFalse (by intro hc; cases hc)

/-- The successful result of `schedule_post`: the updated manager state,
the dictionary key the post was stored under, the created post (the
return value of the method), and the events emitted. -/
structure ScheduleOk where
  state : ManagerState
  key : PKey
  post : Post Nat
  events : List Event
deriving DecidableEq, Repr

/-- Resolution of the `post_time` argument in `schedule_post`: an
omitted time defaults to `now + timedelta(minutes=5)`, a datetime is
used as is, and a string is parsed with `fromisoformat`, raising
`ValueError` on failure. -/
def resolvePostTime (post_time : TimeArg) (now : Nat) : Except String Nat :=
  match post_time with
  | .absent => .ok (now + graceInterval)
  | .dt t => .ok t
  | .iso s =>
      match parseIsoInstant s with
      | some t => .ok t
      | none => .error ("Invalid datetime format: " ++ s)

/-- Embedding of `EnhancedSocialMediaManager.schedule_post`. Validates
the (lowercased) platform, resolves the post time (defaulting to
`now + 5 minutes`, parsing a string argument, failing with `ValueError`
on a parse error), creates the post with status `SCHEDULED`, stores it
under `str(id(post))`, and emits `post_scheduled`. Errors are raised
before any state mutation, so the error case carries no state. -/
def schedule_post (st : ManagerState) (platform_name content_path caption : String)
    (post_time : TimeArg) (metadata : List (String × String)) (now : Nat) :
    Except String ScheduleOk :=
  let pname := pyLower platform_name
  if pname ∈ st.platforms then
    match resolvePostTime post_time now with
    | .error e => .error e
    | .ok t =>
        let post : Post Nat :=
          { platform := pname
            content_path := content_path
            caption := caption
            scheduled_time := t
            status := .scheduled
            post_id := none
            post_url := none
            error := none
            created_at := now
            updated_at := now
            metadata := metadata }
        let key : PKey := .addr st.nextAddr
        .ok { state := { st with
                         scheduled_posts := dictSet st.scheduled_posts key post
                         nextAddr := st.nextAddr + 1 }
              key := key
              post := post
              events := [.post_scheduled] }
  else .error ("Platform not registered: " ++ pname)

/-- The outcome of one `platform.post(...)` call as seen by
`_process_post`: a success result dict, a non-success result dict
(re-raised as `Exception(result.get('message', ...))`), or an exception
raised by the platform. -/
inductive PubResult where
  | success (pid url : String)
  | failure (message : String)
  | raises (message : String)
deriving DecidableEq, Repr

/-- The result of one `_process_post` call: the updated state, the
events emitted, and how many times `platform.post` was invoked. -/
structure ProcessResult where
  state : ManagerState
  events : List Event
  pubCalls : Nat
deriving DecidableEq, Repr

/-- Embedding of `EnhancedSocialMediaManager._process_post`. Returns
immediately unless the post's status is `SCHEDULED`; otherwise marks it
`POSTING` (emitting `post_started`), looks up the platform — a missing
platform raises `ValueError`, caught by the same handler as a publish
failure, without invoking the publisher — then invokes the publisher
once: on success the post becomes `POSTED` with the external id and url
recorded (`post_completed`); on a non-success result or an exception it
becomes `FAILED` with `error` set (`post_failed`). -/
def processPost (st : ManagerState) (key : PKey) (pub : PubResult) (now : Nat) :
    ProcessResult :=
  match dictGet st.scheduled_posts key with
  | none => ⟨st, [], 0⟩
  | some p =>
    if p.status = .scheduled then
      let p1 := { p with status := PostStatus.posting, updated_at := now }
      if pyLower p.platform ∈ st.platforms then
        match pub with
        | .success pid url =>
            let p2 := { p1 with
                        status := PostStatus.posted
                        post_id := some pid
                        post_url := some url
                        updated_at := now }
            ⟨{ st with scheduled_posts := dictSet st.scheduled_posts key p2 },
             [.post_started, .post_completed], 1⟩
        | .failure msg | .raises msg =>
            let p2 := { p1 with
                        status := PostStatus.failed
                        error := some msg
                        updated_at := now }
            ⟨{ st with scheduled_posts := dictSet st.scheduled_posts key p2 },
             [.post_started, .post_failed], 1⟩
      else
        let p2 := { p1 with
                    status := PostStatus.failed
                    error := some ("Platform not found: " ++ p.platform)
                    updated_at := now }
        ⟨{ st with scheduled_posts := dictSet st.scheduled_posts key p2 },
         [.post_started, .post_failed], 0⟩
    else ⟨st, [], 0⟩

/-- Embedding of `EnhancedSocialMediaManager.cancel_post`: succeeds and
sets status `CANCELLED` exactly when the post exists with status `DRAFT`
or `SCHEDULED`; otherwise returns `False` without touching anything. -/
def cancel_post (st : ManagerState) (post_id : PKey) (now : Nat) :
    Bool × ManagerState :=
  match dictGet st.scheduled_posts post_id with
  | some p =>
      if p.status = .draft ∨ p.status = .scheduled then
        let p2 := { p with status := PostStatus.cancelled, updated_at := now }
        (true, { st with scheduled_posts := dictSet st.scheduled_posts post_id p2 })
      else (false, st)
  | none => (false, st)

/-- One public or worker-loop operation on the manager state. Worker
processing is modelled as `_process_post` on an arbitrary key with an
arbitrary publisher outcome, which covers every dispatch the worker
loop (queue included) can perform. -/
inductive Op where
  | schedule (platform_name content_path caption : String) (post_time : TimeArg)
      (metadata : List (String × String)) (now : Nat)
  | process (key : PKey) (pub : PubResult) (now : Nat)
  | cancel (key : PKey) (now : Nat)

/-- The state after one operation (a raised `ValueError` in
`schedule_post` leaves the state untouched). -/
def applyOp (st : ManagerState) : Op → ManagerState
  | .schedule pn cp cap ta md now =>
      match schedule_post st pn cp cap ta md now with
      | .ok r => r.state
      | .error _ => st
  | .process key pub now => (processPost st key pub now).state
  | .cancel key now => (cancel_post st key now).2

/-- Embedding of `_save_posts`: the list of post records written to
`scheduled_posts.json` (every post in the store, in insertion order). -/
def savePosts (st : ManagerState) : List (Post Nat) :=
  st.scheduled_posts.map (fun kp => kp.2)

/-- Embedding of `_load_posts` on already-decoded records: only posts
whose status is `DRAFT` or `SCHEDULED` are put back into the store,
keyed by `post.post_id or str(id(post))` (Python `or`: the post id when
it is a non-empty string, else the fresh object address). -/
def loadPosts : List (Post Nat) → Nat → List (PKey × Post Nat)
  | [], _ => []
  | p :: rest, a =>
      if p.status = .draft ∨ p.status = .scheduled then
        (match p.post_id with
         | some s => if s = "" then PKey.addr a else PKey.ext s
         | none => PKey.addr a, p) :: loadPosts rest (a + 1)
      else loadPosts rest (a + 1)

/-- Keys allocated by the fresh-address allocator stay below the
allocator counter; externally-derived keys are unconstrained. -/
def keyBelow (k : PKey) (bound : Nat) : Bool :=
  match k with
  | .addr n => n < bound
  | .ext _ => true

/-- Well-formedness of a manager state: every allocator-derived key in
the store is below the allocator counter (true of any state reachable
from an initial state, and what makes `str(id(post))` fresh). -/
def WF (st : ManagerState) : Prop :=
  ∀ kp ∈ st.scheduled_posts, keyBelow kp.1 st.nextAddr = true

/-- The transition edges named by the specification state machine:
`Draft -> Scheduled`, `Scheduled -> Posting`, `Posting -> Posted`,
`Posting -> Scheduled`, `Posting -> Failed`, `Scheduled -> Cancelled`,
`Draft -> Cancelled`. -/
def edgeB : PostStatus → PostStatus → Bool
  | .draft, .scheduled => true
  | .scheduled, .posting => true
  | .posting, .posted => true
  | .posting, .scheduled => true
  | .posting, .failed => true
  | .scheduled, .cancelled => true
  | .draft, .cancelled => true
  | _, _ => false

instance (st : ManagerState) : Decidable (WF st) := by
  unfold WF
  infer_instance

/-- An initial manager state with only the twitter platform enabled. -/
def initMgr : ManagerState := ⟨["twitter"], [], 0⟩

/-- The post that `schedule_post initMgr "twitter" "img.png" "hello"
(.dt 5) [] 0` creates. -/
def sched0 : Post Nat :=
  { platform := "twitter"
    content_path := "img.png"
    caption := "hello"
    scheduled_time := 5
    status := .scheduled
    post_id := none
    post_url := none
    error := none
    created_at := 0
    updated_at := 0
    metadata := [] }

/-- The manager state holding `sched0` under key `addr 0`. -/
def mgr1 : ManagerState := ⟨["twitter"], [(.addr 0, sched0)], 1⟩

/-- The post `sched0` after a successful cancellation at time 7. -/
def cancelled0 : Post Nat := { sched0 with status := .cancelled, updated_at := 7 }

/-- A concrete processing operation used by the C9 witness. -/
def opW : Op := .process (.addr 0) (.success "ext9" "http://x") 9

/-- The post `sched0` after a successful publish at time 3. -/
def postedPost : Post Nat :=
  { sched0 with
    status := .posted
    post_id := some "ext1"
    post_url := some "u"
    updated_at := 3 }

/-- The manager state holding the published `postedPost`. -/
def mgrPosted : ManagerState := ⟨["twitter"], [(.addr 0, postedPost)], 1⟩

/-- The Twitter platform's rate-limiter state: the configured
`rate_limit` (300, stored in `__init__` from the platform config and
never read by `_rate_limit`) and `last_api_call`. -/
structure TwitterState where
  rate_limit : Nat
  last_api_call : Nat
deriving DecidableEq, Repr

/-- The configured `rate_limit` for twitter
(`config/__init__.py`: 300). -/
def twitterRateLimitConfig : Nat := 300

/-- The hardcoded `min_interval = 5` seconds in `Twitter._rate_limit`. -/
def twitterMinInterval : Nat := 5

/-- Embedding of `Twitter._rate_limit`: sleeps until five seconds have
passed since `last_api_call`, then sets `last_api_call` to the current
time. Returns the time at which the call proceeds together with the
updated state. -/
def rateLimitAcquire (st : TwitterState) (now : Nat) : Nat × TwitterState :=
  let since := now - st.last_api_call
  if since < twitterMinInterval then
    let t := now + (twitterMinInterval - since)
    (t, { st with last_api_call := t })
  else
    (now, { st with last_api_call := now })

/-- Modelled from the spec (§4.3), for comparison with the code: the
interval the specification says is derived from the platform's
calls-per-period budget, `minInterval = period / callsAllowed`. -/
def specMinInterval (period callsAllowed : Nat) : Nat := period / callsAllowed

/-- The outcome of one subscriber callback: a normal return or a raised
exception with its message. -/
inductive CbResult where
  | ok
  | raised (msg : String)
deriving DecidableEq, Repr

/-- A subscriber callback as seen by `_trigger_callback`. -/
def Callback : Type := Post Nat → CbResult

/-- Embedding of `_trigger_callback`: iterates over the callbacks
registered for an event in list (= registration) order; each callback
is invoked inside `try/except`, so a raised exception is logged
(`"Error in {event} callback: ..."`) and the loop continues. Returns
the invocation results in order and the logged error lines. -/
def triggerCallback (event : String) : List Callback → Post Nat → List CbResult × List String
  | [], _ => ([], [])
  | cb :: rest, p =>
      let r := cb p
      let tailRes := triggerCallback event rest p
      match r with
      | .ok => (r :: tailRes.1, tailRes.2)
      | .raised m =>
          (r :: tailRes.1, ("Error in " ++ event ++ " callback: " ++ m) :: tailRes.2)

/-- The `_callbacks` dictionary as initialized in
`EnhancedSocialMediaManager.__init__`: exactly five event keys, each
with an empty subscriber list. -/
def initCallbacks : List (String × List Callback) :=
  [("post_scheduled", []), ("post_started", []), ("post_completed", []),
   ("post_failed", []), ("error", [])]

/-- Embedding of `register_callback`: raises `ValueError` when the event
name is not a key of `_callbacks`, otherwise appends the callback to
that event's list. -/
def registerCallback (m : List (String × List Callback)) (event : String) (cb : Callback) :
    Except String (List (String × List Callback)) :=
  if (m.lookup event).isSome then
    .ok (m.map (fun kv => if kv.1 = event then (kv.1, kv.2 ++ [cb]) else kv))
  else .error ("Unknown event: " ++ event)

/-- A trivial subscriber used by the C10 witness. -/
def cbOk : Callback := fun _ => .ok

lemma digitChar_isDigit : ∀ d < 10, (digitChar d).isDigit = true := by decide

lemma digitChar_toNat : ∀ d < 10, (digitChar d).toNat = 48 + d := by decide

lemma readFixed_padNum (w : Nat) : ∀ acc n rest, n < 10 ^ w →
    readFixed w acc (padNum w n ++ rest) = some (acc * 10 ^ w + n, rest) := by
  induction w with
  | zero =>
      intro acc n rest hn
      interval_cases n
      simp [padNum, readFixed]
  | succ w ih =>
      intro acc n rest hn
      have hdig : n / 10 ^ w < 10 := by
        have h1 : n < 10 * 10 ^ w := by
          calc n < 10 ^ (w + 1) := hn
          _ = 10 * 10 ^ w := by ring
        exact Nat.div_lt_of_lt_mul (by omega)
      have hp : 0 < 10 ^ w := Nat.pos_pow_of_pos w (by omega)
      have hmod : n % 10 ^ w < 10 ^ w := Nat.mod_lt _ hp
      simp only [padNum, List.cons_append, readFixed,
        digitChar_isDigit _ hdig, if_pos, digitChar_toNat _ hdig, List.append_eq]
      rw [ih (10 * acc + (48 + n / 10 ^ w - 48)) (n % 10 ^ w) rest hmod]
      have h48 : 48 + n / 10 ^ w - 48 = n / 10 ^ w := Nat.add_sub_cancel_left 48 (n / 10 ^ w)
      rw [h48]
      have hdm : 10 ^ w * (n / 10 ^ w) + n % 10 ^ w = n := Nat.div_add_mod n (10 ^ w)
      have hAB : (10 * acc + n / 10 ^ w) * 10 ^ w + n % 10 ^ w
          = acc * 10 ^ (w + 1) + n := by
        calc (10 * acc + n / 10 ^ w) * 10 ^ w + n % 10 ^ w
            = acc * (10 ^ w * 10) + (10 ^ w * (n / 10 ^ w) + n % 10 ^ w) := by ring
        _ = acc * 10 ^ (w + 1) + n := by rw [hdm, pow_succ]
      rw [hAB]

lemma expectChar_cons (e : Char) (cs : List Char) :
    expectChar e (e :: cs) = some cs := by
  simp [expectChar]

/-- Round-trip of the datetime serialization: `fromisoformat` inverts
`isoformat` on every constructor-valid datetime. -/
theorem DateTime.fromisoformat_isoformat (d : DateTime) (h : d.valid) :
    DateTime.fromisoformat d.isoformat = some d := by
  obtain ⟨y, mo, dy, hh, mi, ss, us⟩ := d
  unfold DateTime.valid at h
  dsimp only at h
  obtain ⟨h1, h2, h3, h4, h5, h6, h7, h8, h9, h10⟩ := h
  have e4 : (10 : Nat) ^ 4 = 10000 := by norm_num
  have e2 : (10 : Nat) ^ 2 = 100 := by norm_num
  have e6 : (10 : Nat) ^ 6 = 1000000 := by norm_num
  have hy : y < 10 ^ 4 := by omega
  have hmo : mo < 10 ^ 2 := by omega
  have hdy : dy < 10 ^ 2 := by omega
  have hhh : hh < 10 ^ 2 := by omega
  have hmi : mi < 10 ^ 2 := by omega
  have hss : ss < 10 ^ 2 := by omega
  have hus : us < 10 ^ 6 := by omega
  show parseIsoChars (isoformatChars ⟨y, mo, dy, hh, mi, ss, us⟩) = _
  unfold isoformatChars parseIsoChars
  rw [readFixed_padNum 4 0 y _ hy]
  simp only [Option.bind_eq_bind, Option.some_bind, Nat.zero_mul, Nat.zero_add]
  rw [expectChar_cons]
  simp only [Option.bind_eq_bind, Option.some_bind]
  rw [readFixed_padNum 2 0 mo _ hmo]
  simp only [Option.bind_eq_bind, Option.some_bind, Nat.zero_mul, Nat.zero_add]
  rw [expectChar_cons]
  simp only [Option.bind_eq_bind, Option.some_bind]
  rw [readFixed_padNum 2 0 dy _ hdy]
  simp only [Option.bind_eq_bind, Option.some_bind, Nat.zero_mul, Nat.zero_add]
  rw [expectChar_cons]
  simp only [Option.bind_eq_bind, Option.some_bind]
  rw [readFixed_padNum 2 0 hh _ hhh]
  simp only [Option.bind_eq_bind, Option.some_bind, Nat.zero_mul, Nat.zero_add]
  rw [expectChar_cons]
  simp only [Option.bind_eq_bind, Option.some_bind]
  rw [readFixed_padNum 2 0 mi _ hmi]
  simp only [Option.bind_eq_bind, Option.some_bind, Nat.zero_mul, Nat.zero_add]
  rw [expectChar_cons]
  simp only [Option.bind_eq_bind, Option.some_bind]
  by_cases hz : us = 0
  · subst hz
    rw [if_pos (Eq.refl (0 : Nat))]
    rw [readFixed_padNum 2 0 ss _ hss]
    simp only [Option.bind_eq_bind, Option.some_bind, Nat.zero_mul, Nat.zero_add]
  · rw [if_neg hz]
    rw [readFixed_padNum 2 0 ss _ hss]
    simp only [Option.bind_eq_bind, Option.some_bind, Nat.zero_mul, Nat.zero_add]
    simp only [if_true]
    rw [show (padNum 6 us : List Char) = padNum 6 us ++ [] from (List.append_nil _).symm]
    rw [readFixed_padNum 6 0 us _ hus]
    simp only [Nat.zero_mul, Nat.zero_add]

lemma PostStatus.ofName_pyName (s : PostStatus) : PostStatus.ofName s.pyName = some s := by
  cases s <;> rfl

/-- C6: serialization round-trip is the identity on posts: for every
post whose three datetime fields are constructor-valid,
`Post.from_dict (p.to_dict)` returns a post equal to `p` in every field
(platform, content path, caption, scheduled time, status, ids, error,
timestamps, metadata). -/
theorem post_from_dict_to_dict (p : Post DateTime)
    (h1 : p.scheduled_time.valid) (h2 : p.created_at.valid)
    (h3 : p.updated_at.valid) :
    Post.from_dict (Post.to_dict p) = some p := by
  obtain ⟨pf, cp, cap, st, s, pid, purl, err, cat, uat, md⟩ := p
  unfold Post.to_dict Post.from_dict
  dsimp only at h1 h2 h3 ⊢
  rw [DateTime.fromisoformat_isoformat _ h1, DateTime.fromisoformat_isoformat _ h2,
      DateTime.fromisoformat_isoformat _ h3]
  simp only [Option.bind_eq_bind, Option.some_bind]
  rw [PostStatus.ofName_pyName]
  simp only [Option.bind_eq_bind, Option.some_bind]

/-- Witness for C6 at a concrete post. -/
theorem post_from_dict_to_dict_witness :
    Post.from_dict (Post.to_dict examplePost) = some examplePost :=
  post_from_dict_to_dict examplePost (by decide) (by decide) (by decide)

lemma dictGet_dictSet_self {α : Type} (l : List (PKey × α)) (k : PKey) (v : α) :
    dictGet (dictSet l k v) k = some v := by
  induction l with
  | nil => simp [dictGet, dictSet]
  | cons kv rest ih =>
      obtain ⟨ka, va⟩ := kv
      by_cases hka : ka = k
      · subst hka
        simp [dictSet, dictGet]
      · simp [dictSet, dictGet, hka, ih]

lemma dictGet_dictSet_ne {α : Type} (l : List (PKey × α)) (k k' : PKey) (v : α)
    (h : k' ≠ k) : dictGet (dictSet l k v) k' = dictGet l k' := by
  induction l with
  | nil =>
      simp [dictSet, dictGet, Ne.symm h]
  | cons kv rest ih =>
      obtain ⟨ka, va⟩ := kv
      by_cases hka : ka = k
      · subst hka
        simp [dictSet, dictGet, Ne.symm h]
      · simp [dictSet, dictGet, hka, ih]

lemma dictGet_mem {α : Type} {l : List (PKey × α)} {k : PKey} {v : α}
    (h : dictGet l k = some v) : (k, v) ∈ l := by
  induction l with
  | nil => simp [dictGet] at h
  | cons kv rest ih =>
      obtain ⟨ka, va⟩ := kv
      by_cases hka : ka = k
      · subst hka
        simp only [dictGet, eq_self_iff_true, if_true, Option.some.injEq] at h
        subst h
        exact List.mem_cons_self _ _
      · simp only [dictGet, if_neg hka] at h
        exact List.mem_cons_of_mem _ (ih h)

lemma mem_dictSet {α : Type} {l : List (PKey × α)} {k : PKey} {v : α} {kp : PKey × α}
    (h : kp ∈ dictSet l k v) : kp ∈ l ∨ kp = (k, v) := by
  induction l with
  | nil =>
      simp [dictSet] at h
      right
      simp [h]
  | cons hd rest ih =>
      obtain ⟨ka, va⟩ := hd
      by_cases hka : ka = k
      · subst hka
        simp only [dictSet, eq_self_iff_true, if_true, List.mem_cons] at h
        rcases h with h | h
        · right
          simp [h]
        · left
          exact List.mem_cons_of_mem _ h
      · simp only [dictSet, if_neg hka, List.mem_cons] at h
        rcases h with h | h
        · left
          simp [h]
        · rcases ih h with h1 | h1
          · left
            exact List.mem_cons_of_mem _ h1
          · right
            exact h1

lemma keyBelow_mono {k : PKey} {b b' : Nat} (h : keyBelow k b = true) (hb : b ≤ b') :
    keyBelow k b' = true := by
  cases k with
  | addr n =>
      simp only [keyBelow, decide_eq_true_eq] at h ⊢
      omega
  | ext s => simp [keyBelow]

lemma dictGet_fresh {st : ManagerState} (hwf : WF st) :
    dictGet st.scheduled_posts (PKey.addr st.nextAddr) = none := by
  cases hv : dictGet st.scheduled_posts (PKey.addr st.nextAddr) with
  | none => rfl
  | some v =>
      have hm := dictGet_mem hv
      have hb := hwf _ hm
      simp only [keyBelow, decide_eq_true_eq] at hb
      omega

lemma schedule_ok_shape {st : ManagerState} {pn cp cap : String} {ta : TimeArg}
    {md : List (String × String)} {now : Nat} {r : ScheduleOk}
    (h : schedule_post st pn cp cap ta md now = .ok r) :
    r.key = PKey.addr st.nextAddr ∧
    r.post.status = .scheduled ∧
    r.events = [.post_scheduled] ∧
    r.state.scheduled_posts = dictSet st.scheduled_posts r.key r.post ∧
    r.state.nextAddr = st.nextAddr + 1 ∧
    r.state.platforms = st.platforms ∧
    resolvePostTime ta now = .ok r.post.scheduled_time ∧
    r.post.created_at = now ∧ r.post.metadata = md ∧
    r.post.platform = pyLower pn := by
  unfold schedule_post at h
  by_cases hp : pyLower pn ∈ st.platforms
  · simp only [if_pos hp] at h
    cases hrt : resolvePostTime ta now with
    | error e =>
        rw [hrt] at h
        simp at h
    | ok t =>
        rw [hrt] at h
        simp only [Except.ok.injEq] at h
        subst h
        exact ⟨rfl, rfl, rfl, rfl, rfl, rfl, rfl, rfl, rfl, rfl⟩
  · simp only [if_neg hp] at h
    simp at h

lemma processPost_shape (st : ManagerState) (key : PKey) (pub : PubResult) (now : Nat) :
    processPost st key pub now = ⟨st, [], 0⟩ ∨
    (∃ p p2 evs calls, dictGet st.scheduled_posts key = some p ∧
       p.status = PostStatus.scheduled ∧
       (p2.status = PostStatus.posted ∨ p2.status = PostStatus.failed) ∧
       processPost st key pub now =
         ⟨{ st with scheduled_posts := dictSet st.scheduled_posts key p2 }, evs, calls⟩) := by
  unfold processPost
  cases hkey : dictGet st.scheduled_posts key with
  | none => left; rfl
  | some p =>
      dsimp only
      by_cases hs : p.status = PostStatus.scheduled
      · rw [if_pos hs]
        by_cases hpl : pyLower p.platform ∈ st.platforms
        · rw [if_pos hpl]
          cases pub with
          | success pid url =>
              right
              refine ⟨p, _, _, _, rfl, hs, ?_, rfl⟩
              left; rfl
          | failure msg =>
              right
              refine ⟨p, _, _, _, rfl, hs, ?_, rfl⟩
              right; rfl
          | raises msg =>
              right
              refine ⟨p, _, _, _, rfl, hs, ?_, rfl⟩
              right; rfl
        · rw [if_neg hpl]
          right
          refine ⟨p, _, _, _, rfl, hs, ?_, rfl⟩
          right; rfl
      · rw [if_neg hs]
        left; rfl

lemma cancel_post_shape (st : ManagerState) (key : PKey) (now : Nat) :
    ((¬ ∃ p, dictGet st.scheduled_posts key = some p ∧
        (p.status = PostStatus.draft ∨ p.status = PostStatus.scheduled)) ∧
      (cancel_post st key now).1 = false ∧ (cancel_post st key now).2 = st) ∨
    (∃ p, dictGet st.scheduled_posts key = some p ∧
       (p.status = PostStatus.draft ∨ p.status = PostStatus.scheduled) ∧
       cancel_post st key now =
         (true, { st with scheduled_posts := dictSet st.scheduled_posts key ({ p with status := PostStatus.cancelled, updated_at := now }) })) := by
  unfold cancel_post
  cases hkey : dictGet st.scheduled_posts key with
  | none =>
      left
      refine ⟨?_, rfl, rfl⟩
      rintro ⟨p, hp, _⟩
      cases hp
  | some p =>
      dsimp only
      by_cases hs : p.status = PostStatus.draft ∨ p.status = PostStatus.scheduled
      · rw [if_pos hs]
        right
        exact ⟨p, rfl, hs, rfl⟩
      · rw [if_neg hs]
        left
        refine ⟨?_, rfl, rfl⟩
        rintro ⟨p', hp', hs'⟩
        injection hp' with hp'
        subst hp'
        exact hs hs'

lemma WF_applyOp (st : ManagerState) (hwf : WF st) (op : Op) : WF (applyOp st op) := by
  cases op with
  | schedule pn cp cap ta md now =>
      simp only [applyOp]
      cases hres : schedule_post st pn cp cap ta md now with
      | error e => exact hwf
      | ok r =>
          obtain ⟨hkey, _, _, hposts, hnext, _⟩ := schedule_ok_shape hres
          intro kp hkp
          rw [hposts, hkey] at hkp
          rw [hnext]
          rcases mem_dictSet hkp with hm | hm
          · exact keyBelow_mono (hwf _ hm) (Nat.le_succ _)
          · subst hm
            simp [keyBelow]
  | process key pub now =>
      simp only [applyOp]
      rcases processPost_shape st key pub now with hsh | ⟨p, p2, evs, calls, hkeyd, hs, hp2, hsh⟩
      · rw [hsh]
        exact hwf
      · rw [hsh]
        intro kp hkp
        rcases mem_dictSet hkp with hm | hm
        · exact hwf _ hm
        · subst hm
          exact hwf (key, p) (dictGet_mem hkeyd)
  | cancel key now =>
      simp only [applyOp]
      rcases cancel_post_shape st key now with ⟨_, _, hsh⟩ | ⟨p, hkeyd, hs, hsh⟩
      · rw [hsh]
        exact hwf
      · rw [hsh]
        intro kp hkp
        rcases mem_dictSet hkp with hm | hm
        · exact hwf _ hm
        · subst hm
          exact hwf (key, p) (dictGet_mem hkeyd)

lemma applyOp_nextAddr_mono (st : ManagerState) (op : Op) :
    st.nextAddr ≤ (applyOp st op).nextAddr := by
  cases op with
  | schedule pn cp cap ta md now =>
      simp only [applyOp]
      cases hres : schedule_post st pn cp cap ta md now with
      | error e => exact Nat.le_refl _
      | ok r =>
          obtain ⟨_, _, _, _, hnext, _⟩ := schedule_ok_shape hres
          rw [hnext]
          exact Nat.le_succ _
  | process key pub now =>
      simp only [applyOp]
      rcases processPost_shape st key pub now with hsh | ⟨p, p2, evs, calls, _, _, _, hsh⟩ <;>
        rw [hsh]
  | cancel key now =>
      simp only [applyOp]
      rcases cancel_post_shape st key now with ⟨_, _, hsh⟩ | ⟨p, _, _, hsh⟩ <;>
        rw [hsh]

lemma applyOp_lookup (st : ManagerState) (hwf : WF st) (op : Op) (k : PKey) :
    dictGet (applyOp st op).scheduled_posts k = dictGet st.scheduled_posts k ∨
    (∃ p q, dictGet st.scheduled_posts k = some p ∧
       dictGet (applyOp st op).scheduled_posts k = some q ∧
       ((p.status = PostStatus.scheduled ∧
           (q.status = PostStatus.posted ∨ q.status = PostStatus.failed)) ∨
        ((p.status = PostStatus.draft ∨ p.status = PostStatus.scheduled) ∧
           q.status = PostStatus.cancelled))) ∨
    (dictGet st.scheduled_posts k = none ∧ k = PKey.addr st.nextAddr ∧
       ∃ q, dictGet (applyOp st op).scheduled_posts k = some q ∧
         q.status = PostStatus.scheduled) := by
  cases op with
  | schedule pn cp cap ta md now =>
      simp only [applyOp]
      cases hres : schedule_post st pn cp cap ta md now with
      | error e => left; rfl
      | ok r =>
          obtain ⟨hkey, hstat, _, hposts, hnext, _⟩ := schedule_ok_shape hres
          by_cases hk : k = PKey.addr st.nextAddr
          · subst hk
            right; right
            refine ⟨dictGet_fresh hwf, rfl, r.post, ?_, hstat⟩
            rw [hposts, hkey]
            exact dictGet_dictSet_self _ _ _
          · left
            rw [hposts, hkey]
            exact dictGet_dictSet_ne _ _ _ _ hk
  | process key pub now =>
      simp only [applyOp]
      rcases processPost_shape st key pub now with hsh | ⟨p, p2, evs, calls, hkeyd, hs, hp2, hsh⟩
      · rw [hsh]
        left; rfl
      · rw [hsh]
        by_cases hk : k = key
        · subst hk
          right; left
          exact ⟨p, p2, hkeyd, dictGet_dictSet_self _ _ _, Or.inl ⟨hs, hp2⟩⟩
        · left
          exact dictGet_dictSet_ne _ _ _ _ hk
  | cancel key now =>
      simp only [applyOp]
      rcases cancel_post_shape st key now with ⟨_, _, hsh⟩ | ⟨p, hkeyd, hs, hsh⟩
      · rw [hsh]
        left; rfl
      · rw [hsh]
        by_cases hk : k = key
        · subst hk
          right; left
          refine ⟨p, _, hkeyd, dictGet_dictSet_self _ _ _, Or.inr ⟨hs, ?_⟩⟩
          rfl
        · left
          exact dictGet_dictSet_ne _ _ _ _ hk

/-- C2: along any manager operation (schedule, worker processing,
cancel), a stored post's status either stays the same or moves along
the specified edges (a single `_process_post` call traverses
`Scheduled -> Posting -> Posted/Failed`, two consecutive edges); and a
post in a terminal status never changes status again. -/
theorem status_transitions_along_edges (st : ManagerState) (hwf : WF st) (op : Op)
    (k : PKey) (p q : Post Nat)
    (hp : dictGet st.scheduled_posts k = some p)
    (hq : dictGet (applyOp st op).scheduled_posts k = some q) :
    (p.status = q.status ∨ edgeB p.status q.status = true ∨
      ∃ m, edgeB p.status m = true ∧ edgeB m q.status = true) ∧
    (p.status.isTerminal = true → q.status = p.status) := by
  rcases applyOp_lookup st hwf op k with heq | ⟨p', q', hp', hq', hcase⟩ | ⟨hnone, _, _⟩
  · rw [heq, hp] at hq
    injection hq with hq
    subst hq
    exact ⟨Or.inl rfl, fun _ => rfl⟩
  · rw [hp] at hp'
    injection hp' with hp'
    subst hp'
    rw [hq] at hq'
    injection hq' with hq'
    subst hq'
    rcases hcase with ⟨hs, hq2⟩ | ⟨hs, hq2⟩
    · constructor
      · right; right
        refine ⟨PostStatus.posting, ?_, ?_⟩
        · rw [hs]; rfl
        · rcases hq2 with h | h <;> rw [h] <;> rfl
      · intro hterm
        rw [hs] at hterm
        simp [PostStatus.isTerminal] at hterm
    · constructor
      · right; left
        rcases hs with h | h <;> rw [h, hq2] <;> rfl
      · intro hterm
        rcases hs with h | h <;> rw [h] at hterm <;>
          simp [PostStatus.isTerminal] at hterm
  · rw [hp] at hnone
    cases hnone

/-- Witness for C2: cancelling the scheduled post `sched0` moves it
along the `Scheduled -> Cancelled` edge. -/
theorem status_transitions_along_edges_witness :
    (sched0.status = cancelled0.status ∨ edgeB sched0.status cancelled0.status = true ∨
      ∃ m, edgeB sched0.status m = true ∧ edgeB m cancelled0.status = true) ∧
    (sched0.status.isTerminal = true → cancelled0.status = sched0.status) :=
  status_transitions_along_edges mgr1 (by decide) (.cancel (.addr 0) 7) (.addr 0)
    sched0 cancelled0 (by decide) (by decide)

/-- C9: the store key (the manager's identifier for a post, the modelled
`str(id(post))`) is assigned by `schedule_post` at creation, is fresh
(never previously bound, and below no previously allocated address),
remains bound across every later operation — including successful
publishing, which updates the post's fields but not its key — and the
allocator never hands out the same address twice (it is monotone and all
stored addresses stay below it). -/
theorem post_key_fresh_immutable_never_reused (st : ManagerState) (hwf : WF st) (op : Op) :
    WF (applyOp st op) ∧
    st.nextAddr ≤ (applyOp st op).nextAddr ∧
    (∀ k, (dictGet st.scheduled_posts k).isSome = true →
       (dictGet (applyOp st op).scheduled_posts k).isSome = true) ∧
    (∀ k, (dictGet (applyOp st op).scheduled_posts k).isSome = true →
       (dictGet st.scheduled_posts k).isSome = true ∨ k = PKey.addr st.nextAddr) ∧
    (∀ pn cp cap ta md now r, schedule_post st pn cp cap ta md now = .ok r →
       r.key = PKey.addr st.nextAddr ∧ dictGet st.scheduled_posts r.key = none ∧
       dictGet r.state.scheduled_posts r.key = some r.post) := by
  refine ⟨WF_applyOp st hwf op, applyOp_nextAddr_mono st op, ?_, ?_, ?_⟩
  · intro k hk
    rcases applyOp_lookup st hwf op k with heq | ⟨p', q', hp', hq', _⟩ | ⟨hnone, _, _⟩
    · rw [heq]
      exact hk
    · rw [hq']
      rfl
    · rw [hnone] at hk
      simp at hk
  · intro k hk
    rcases applyOp_lookup st hwf op k with heq | ⟨p', q', hp', hq', _⟩ | ⟨hnone, hkey, _⟩
    · left
      rw [← heq]
      exact hk
    · left
      rw [hp']
      rfl
    · right
      exact hkey
  · intro pn cp cap ta md now r hres
    obtain ⟨hkey, _, _, hposts, _, _⟩ := schedule_ok_shape hres
    refine ⟨hkey, ?_, ?_⟩
    · rw [hkey]
      exact dictGet_fresh hwf
    · rw [hposts]
      exact dictGet_dictSet_self _ _ _

/-- Witness for C9 at the concrete state `mgr1` and a successful
publish operation. -/
theorem post_key_fresh_immutable_never_reused_witness :
    WF (applyOp mgr1 opW) ∧
    mgr1.nextAddr ≤ (applyOp mgr1 opW).nextAddr ∧
    (∀ k, (dictGet mgr1.scheduled_posts k).isSome = true →
       (dictGet (applyOp mgr1 opW).scheduled_posts k).isSome = true) ∧
    (∀ k, (dictGet (applyOp mgr1 opW).scheduled_posts k).isSome = true →
       (dictGet mgr1.scheduled_posts k).isSome = true ∨ k = PKey.addr mgr1.nextAddr) ∧
    (∀ pn cp cap ta md now r, schedule_post mgr1 pn cp cap ta md now = .ok r →
       r.key = PKey.addr mgr1.nextAddr ∧ dictGet mgr1.scheduled_posts r.key = none ∧
       dictGet r.state.scheduled_posts r.key = some r.post) :=
  post_key_fresh_immutable_never_reused mgr1 (by decide) opW

/-- C3: `cancel_post` returns `True` and sets the post's status to
`CANCELLED` (refreshing `updated_at`) exactly when a post with the
given id exists in status `DRAFT` or `SCHEDULED`; otherwise it returns
`False` and the entire manager state — in particular the post and every
one of its fields — is unchanged. -/
theorem cancel_post_spec (st : ManagerState) (k : PKey) (now : Nat) :
    ((cancel_post st k now).1 = true ↔
       ∃ p, dictGet st.scheduled_posts k = some p ∧
         (p.status = PostStatus.draft ∨ p.status = PostStatus.scheduled)) ∧
    ((cancel_post st k now).1 = false → (cancel_post st k now).2 = st) ∧
    (∀ p, dictGet st.scheduled_posts k = some p →
       (p.status = PostStatus.draft ∨ p.status = PostStatus.scheduled) →
       dictGet (cancel_post st k now).2.scheduled_posts k =
         some ({ p with status := PostStatus.cancelled, updated_at := now })) := by
  rcases cancel_post_shape st k now with ⟨hno, hb, hst⟩ | ⟨p, hkey, hs, heq⟩
  · refine ⟨?_, fun _ => hst, ?_⟩
    · constructor
      · intro h
        rw [h] at hb
        cases hb
      · intro hex
        exact absurd hex hno
    · intro p hp hps
      exact absurd ⟨p, hp, hps⟩ hno
  · refine ⟨?_, ?_, ?_⟩
    · constructor
      · intro _
        exact ⟨p, hkey, hs⟩
      · intro _
        rw [heq]
    · intro hfalse
      rw [heq] at hfalse
      cases hfalse
    · intro p' hp' hps'
      rw [hkey] at hp'
      injection hp' with hp'
      subst hp'
      rw [heq]
      exact dictGet_dictSet_self _ _ _

/-- Witness for C3: cancelling the scheduled post in `mgr1`. -/
theorem cancel_post_spec_witness :
    ((cancel_post mgr1 (.addr 0) 7).1 = true ↔
       ∃ p, dictGet mgr1.scheduled_posts (.addr 0) = some p ∧
         (p.status = PostStatus.draft ∨ p.status = PostStatus.scheduled)) ∧
    ((cancel_post mgr1 (.addr 0) 7).1 = false → (cancel_post mgr1 (.addr 0) 7).2 = mgr1) ∧
    (∀ p, dictGet mgr1.scheduled_posts (.addr 0) = some p →
       (p.status = PostStatus.draft ∨ p.status = PostStatus.scheduled) →
       dictGet (cancel_post mgr1 (.addr 0) 7).2.scheduled_posts (.addr 0) =
         some ({ p with status := PostStatus.cancelled, updated_at := 7 })) :=
  cancel_post_spec mgr1 (.addr 0) 7

lemma loadPosts_mem (data : List (Post Nat)) (a : Nat) (p : Post Nat) :
    (∃ k, (k, p) ∈ loadPosts data a) ↔
      p ∈ data ∧ (p.status = PostStatus.draft ∨ p.status = PostStatus.scheduled) := by
  induction data generalizing a with
  | nil => simp [loadPosts]
  | cons hd rest ih =>
      by_cases hs : hd.status = PostStatus.draft ∨ hd.status = PostStatus.scheduled
      · simp only [loadPosts, if_pos hs]
        constructor
        · rintro ⟨k, hk⟩
          rcases List.mem_cons.mp hk with hk | hk
          · have hp : p = hd := congrArg Prod.snd hk
            subst hp
            exact ⟨List.mem_cons_self _ _, hs⟩
          · obtain ⟨hm, hps⟩ := (ih (a + 1)).mp ⟨k, hk⟩
            exact ⟨List.mem_cons_of_mem _ hm, hps⟩
        · rintro ⟨hm, hps⟩
          rcases List.mem_cons.mp hm with he | hm
          · subst he
            exact ⟨_, List.mem_cons_self _ _⟩
          · obtain ⟨k, hk⟩ := (ih (a + 1)).mpr ⟨hm, hps⟩
            exact ⟨k, List.mem_cons_of_mem _ hk⟩
      · simp only [loadPosts, if_neg hs]
        constructor
        · intro h
          obtain ⟨hm, hps⟩ := (ih (a + 1)).mp h
          exact ⟨List.mem_cons_of_mem _ hm, hps⟩
        · rintro ⟨hm, hps⟩
          rcases List.mem_cons.mp hm with he | hm
          · subst he
            exact absurd hps hs
          · exact (ih (a + 1)).mpr ⟨hm, hps⟩

/-- Counterexample to C5: a post created by `schedule_post` and then
successfully published is written to storage by `_save_posts`, but
`_load_posts` drops it on reload (it only keeps `DRAFT`/`SCHEDULED`
posts), so after a simulated restart no record of it is in the store. -/
theorem load_drops_terminal_counterexample :
    schedule_post initMgr "twitter" "img.png" "hello" (.dt 5) [] 0 =
      Except.ok ⟨mgr1, PKey.addr 0, sched0, [Event.post_scheduled]⟩ ∧
    (processPost mgr1 (PKey.addr 0) (.success "ext1" "u") 3).state = mgrPosted ∧
    postedPost.status = PostStatus.posted ∧
    savePosts mgrPosted = [postedPost] ∧
    loadPosts (savePosts mgrPosted) 0 = [] :=
  ⟨by decide, by decide, rfl, rfl, rfl⟩

/-- C5 as amended: during a single manager run no operation ever removes
a post from the store (every bound key stays bound), and `_save_posts`
writes a record for every stored post; but across a simulated restart
`_load_posts` retains exactly the posts whose status is `DRAFT` or
`SCHEDULED` — posts in a terminal status are dropped. -/
theorem no_deletion_within_run_but_load_prunes_terminal
    (st : ManagerState) (hwf : WF st) (op : Op) :
    (∀ k, (dictGet st.scheduled_posts k).isSome = true →
       (dictGet (applyOp st op).scheduled_posts k).isSome = true) ∧
    (∀ k p, dictGet st.scheduled_posts k = some p → p ∈ savePosts st) ∧
    (∀ (data : List (Post Nat)) (a : Nat) (p : Post Nat),
       (∃ k, (k, p) ∈ loadPosts data a) ↔
         p ∈ data ∧ (p.status = PostStatus.draft ∨ p.status = PostStatus.scheduled)) := by
  refine ⟨?_, ?_, loadPosts_mem⟩
  · intro k hk
    rcases applyOp_lookup st hwf op k with heq | ⟨p', q', hp', hq', _⟩ | ⟨hnone, _, _⟩
    · rw [heq]
      exact hk
    · rw [hq']
      rfl
    · rw [hnone] at hk
      simp at hk
  · intro k p hp
    exact List.mem_map_of_mem (fun kp => kp.2) (dictGet_mem hp)

/-- Witness for the amended C5 at the concrete state `mgr1`. -/
theorem no_deletion_within_run_but_load_prunes_terminal_witness :
    (∀ k, (dictGet mgr1.scheduled_posts k).isSome = true →
       (dictGet (applyOp mgr1 (.cancel (.addr 0) 7)).scheduled_posts k).isSome = true) ∧
    (∀ k p, dictGet mgr1.scheduled_posts k = some p → p ∈ savePosts mgr1) ∧
    (∀ (data : List (Post Nat)) (a : Nat) (p : Post Nat),
       (∃ k, (k, p) ∈ loadPosts data a) ↔
         p ∈ data ∧ (p.status = PostStatus.draft ∨ p.status = PostStatus.scheduled)) :=
  no_deletion_within_run_but_load_prunes_terminal mgr1 (by decide) (.cancel (.addr 0) 7)

/-- C4: `schedule_post` raises `ValueError("Platform not registered")`
for an unregistered platform and `ValueError("Invalid datetime format")`
for an unparseable time string, in both cases creating no post and
leaving the state unchanged; an omitted `post_time` defaults to
`now + timedelta(minutes=5)`; on success the created post has status
`SCHEDULED`, is stored, and exactly one `post_scheduled` event fires. -/
theorem schedule_post_spec (st : ManagerState) (pn cp cap : String) (ta : TimeArg)
    (md : List (String × String)) (now : Nat) :
    (pyLower pn ∉ st.platforms →
       schedule_post st pn cp cap ta md now =
         .error ("Platform not registered: " ++ pyLower pn) ∧
       applyOp st (.schedule pn cp cap ta md now) = st) ∧
    (∀ s, ta = .iso s → parseIsoInstant s = none → pyLower pn ∈ st.platforms →
       schedule_post st pn cp cap ta md now =
         .error ("Invalid datetime format: " ++ s) ∧
       applyOp st (.schedule pn cp cap ta md now) = st) ∧
    (∀ r, schedule_post st pn cp cap ta md now = .ok r →
       r.post.status = PostStatus.scheduled ∧
       r.events = [Event.post_scheduled] ∧
       dictGet r.state.scheduled_posts r.key = some r.post ∧
       (ta = .absent → r.post.scheduled_time = now + graceInterval)) := by
  refine ⟨?_, ?_, ?_⟩
  · intro h
    have he : schedule_post st pn cp cap ta md now =
        .error ("Platform not registered: " ++ pyLower pn) := by
      unfold schedule_post
      rw [if_neg h]
    refine ⟨he, ?_⟩
    simp only [applyOp]
    rw [he]
  · intro s hta hparse hmem
    subst hta
    have he : schedule_post st pn cp cap (.iso s) md now =
        .error ("Invalid datetime format: " ++ s) := by
      unfold schedule_post
      rw [if_pos hmem]
      have hrt : resolvePostTime (.iso s) now =
          .error ("Invalid datetime format: " ++ s) := by
        unfold resolvePostTime
        dsimp only
        rw [hparse]
      rw [hrt]
    refine ⟨he, ?_⟩
    simp only [applyOp]
    rw [he]
  · intro r hres
    obtain ⟨_, hstat, hev, hposts, _, _, hrt, _, _, _⟩ := schedule_ok_shape hres
    refine ⟨hstat, hev, ?_, ?_⟩
    · rw [hposts]
      exact dictGet_dictSet_self _ _ _
    · intro hta
      subst hta
      unfold resolvePostTime at hrt
      injection hrt with hrt
      exact hrt.symm

/-- Witness for C4 at the concrete state `mgr1`. -/
theorem schedule_post_spec_witness :
    (pyLower "twitter" ∉ mgr1.platforms →
       schedule_post mgr1 "twitter" "a.png" "cap" .absent [] 50 =
         .error ("Platform not registered: " ++ pyLower "twitter") ∧
       applyOp mgr1 (.schedule "twitter" "a.png" "cap" .absent [] 50) = mgr1) ∧
    (∀ s, TimeArg.absent = TimeArg.iso s → parseIsoInstant s = none →
       pyLower "twitter" ∈ mgr1.platforms →
       schedule_post mgr1 "twitter" "a.png" "cap" .absent [] 50 =
         .error ("Invalid datetime format: " ++ s) ∧
       applyOp mgr1 (.schedule "twitter" "a.png" "cap" .absent [] 50) = mgr1) ∧
    (∀ r, schedule_post mgr1 "twitter" "a.png" "cap" .absent [] 50 = .ok r →
       r.post.status = PostStatus.scheduled ∧
       r.events = [Event.post_scheduled] ∧
       dictGet r.state.scheduled_posts r.key = some r.post ∧
       (TimeArg.absent = TimeArg.absent → r.post.scheduled_time = 50 + graceInterval)) :=
  schedule_post_spec mgr1 "twitter" "a.png" "cap" .absent [] 50

/-- C1 as amended: the engine performs no retry. On a failed delivery
attempt (non-success result or exception) for a scheduled post whose
platform is registered, `_process_post` invokes the publisher exactly
once, moves the post directly to the terminal `FAILED` status with
`error` set, emits `post_started` then `post_failed`, and every later
processing of the same post is a no-op that never invokes the publisher
again. -/
theorem process_failure_terminal_after_one_attempt (st : ManagerState) (key : PKey)
    (p : Post Nat) (msg : String) (pub : PubResult) (now : Nat)
    (hp : dictGet st.scheduled_posts key = some p)
    (hs : p.status = PostStatus.scheduled)
    (hplat : pyLower p.platform ∈ st.platforms)
    (hpub : pub = .failure msg ∨ pub = .raises msg) :
    (processPost st key pub now).pubCalls = 1 ∧
    (processPost st key pub now).events = [Event.post_started, Event.post_failed] ∧
    dictGet (processPost st key pub now).state.scheduled_posts key =
      some ({ p with status := PostStatus.failed, error := some msg, updated_at := now }) ∧
    (∀ pub' now', processPost (processPost st key pub now).state key pub' now' =
       ⟨(processPost st key pub now).state, [], 0⟩) := by
  have hrun : processPost st key pub now =
      ⟨{ st with scheduled_posts := dictSet st.scheduled_posts key ({ p with status := PostStatus.failed, error := some msg, updated_at := now }) },
       [Event.post_started, Event.post_failed], 1⟩ := by
    unfold processPost
    rw [hp]
    dsimp only
    rw [if_pos hs, if_pos hplat]
    rcases hpub with h | h <;> subst h <;> rfl
  refine ⟨by rw [hrun], by rw [hrun], ?_, ?_⟩
  · rw [hrun]
    exact dictGet_dictSet_self _ _ _
  · intro pub' now'
    rw [hrun]
    unfold processPost
    rw [dictGet_dictSet_self]
    dsimp only
    rw [if_neg (by decide)]

/-- Witness for the amended C1 at the concrete state `mgr1`. -/
theorem process_failure_terminal_after_one_attempt_witness :
    (processPost mgr1 (.addr 0) (.failure "boom") 9).pubCalls = 1 ∧
    (processPost mgr1 (.addr 0) (.failure "boom") 9).events =
      [Event.post_started, Event.post_failed] ∧
    dictGet (processPost mgr1 (.addr 0) (.failure "boom") 9).state.scheduled_posts (.addr 0) =
      some ({ sched0 with status := PostStatus.failed, error := some "boom", updated_at := 9 }) ∧
    (∀ pub' now', processPost (processPost mgr1 (.addr 0) (.failure "boom") 9).state
        (.addr 0) pub' now' =
      ⟨(processPost mgr1 (.addr 0) (.failure "boom") 9).state, [], 0⟩) :=
  process_failure_terminal_after_one_attempt mgr1 (.addr 0) sched0 "boom"
    (.failure "boom") 9 (by decide) (by decide) (by decide) (Or.inl rfl)

/-- Counterexample to C1: with a publisher that always fails, a post
scheduled through `schedule_post` reaches terminal `FAILED` status after
a single delivery attempt — the publisher is invoked exactly once, not
`maxAttempts = 3` times, and no reschedule ever happens (there is no
attempt counter in the code at all). -/
theorem process_no_retry_counterexample :
    schedule_post initMgr "twitter" "img.png" "hello" (.dt 5) [] 0 =
      Except.ok ⟨mgr1, PKey.addr 0, sched0, [Event.post_scheduled]⟩ ∧
    (processPost mgr1 (PKey.addr 0) (.failure "always fails") 9).pubCalls = 1 ∧
    (dictGet (processPost mgr1 (PKey.addr 0) (.failure "always fails") 9).state.scheduled_posts
        (PKey.addr 0)).map (fun q => q.status) = some PostStatus.failed ∧
    (processPost (processPost mgr1 (PKey.addr 0) (.failure "always fails") 9).state
        (PKey.addr 0) (.failure "always fails") 10).pubCalls = 0 ∧
    (processPost (processPost mgr1 (PKey.addr 0) (.failure "always fails") 9).state
        (PKey.addr 0) (.failure "always fails") 10).state =
      (processPost mgr1 (PKey.addr 0) (.failure "always fails") 9).state :=
  ⟨by decide, by decide, by decide, by decide, by decide⟩

/-- Counterexample to C7: the code's interval is the hardcoded constant
5, not `period / callsAllowed` (which is 12 for a 300-per-hour reading
and 36 for the 3-hour window named in the code's comment); two
consecutive acquisitions are allowed only 5 seconds apart, closer than
either derived interval. -/
theorem rate_limit_not_derived_counterexample :
    twitterMinInterval = 5 ∧
    specMinInterval 3600 twitterRateLimitConfig = 12 ∧
    specMinInterval 10800 twitterRateLimitConfig = 36 ∧
    (rateLimitAcquire ⟨twitterRateLimitConfig, 0⟩ 100).1 = 100 ∧
    (rateLimitAcquire ((rateLimitAcquire ⟨twitterRateLimitConfig, 0⟩ 100).2) 105).1 = 105 ∧
    105 - 100 < specMinInterval 3600 twitterRateLimitConfig := by decide

/-- C7 as amended: `_rate_limit` enforces a fixed five-second minimum
interval (not one derived from the configured budget, which it ignores):
it blocks until `now - last_api_call >= 5`, and updates `last_api_call`
to the (post-sleep) current time before returning, so consecutive
acquisitions on the same platform are at least five seconds apart. -/
theorem rate_limit_min_gap_five_seconds (st : TwitterState) (now : Nat)
    (h : st.last_api_call ≤ now) :
    twitterMinInterval ≤ (rateLimitAcquire st now).1 - st.last_api_call ∧
    (rateLimitAcquire st now).2.last_api_call = (rateLimitAcquire st now).1 ∧
    now ≤ (rateLimitAcquire st now).1 ∧
    (rateLimitAcquire st now).2.rate_limit = st.rate_limit := by
  unfold rateLimitAcquire twitterMinInterval
  dsimp only
  split_ifs with hif <;> refine ⟨?_, rfl, ?_, rfl⟩ <;> omega

/-- Witness for the amended C7. -/
theorem rate_limit_min_gap_five_seconds_witness :
    twitterMinInterval ≤ (rateLimitAcquire ⟨300, 98⟩ 100).1 - (⟨300, 98⟩ : TwitterState).last_api_call ∧
    (rateLimitAcquire ⟨300, 98⟩ 100).2.last_api_call = (rateLimitAcquire ⟨300, 98⟩ 100).1 ∧
    100 ≤ (rateLimitAcquire ⟨300, 98⟩ 100).1 ∧
    (rateLimitAcquire ⟨300, 98⟩ 100).2.rate_limit = (⟨300, 98⟩ : TwitterState).rate_limit :=
  rate_limit_min_gap_five_seconds ⟨300, 98⟩ 100 (by decide)

/-- C8: when an event fires, every registered callback is invoked in
registration order — the result list is exactly the callbacks applied in
order, even when some of them raise — and each raised exception is
caught and logged rather than propagated (`triggerCallback` returns
normally on every input by construction). -/
theorem trigger_callback_invokes_all_in_order (event : String) (cbs : List Callback)
    (p : Post Nat) :
    (triggerCallback event cbs p).1 = cbs.map (fun cb => cb p) ∧
    (triggerCallback event cbs p).2 = (cbs.map (fun cb => cb p)).filterMap
      (fun r => match r with
        | .ok => none
        | .raised m => some ("Error in " ++ event ++ " callback: " ++ m)) := by
  induction cbs with
  | nil => exact ⟨rfl, rfl⟩
  | cons cb rest ih =>
      obtain ⟨ih1, ih2⟩ := ih
      constructor <;>
        simp only [triggerCallback, List.map_cons, List.filterMap_cons] <;>
        cases hcb : cb p <;>
        simp [hcb, ih1, ih2]

lemma lookup_isSome_iff (m : List (String × List Callback)) (e : String) :
    (m.lookup e).isSome = true ↔ e ∈ m.map Prod.fst := by
  induction m with
  | nil => simp [List.lookup]
  | cons kv rest ih =>
      obtain ⟨k, v⟩ := kv
      by_cases hk : e = k
      · subst hk
        simp [List.lookup]
      · simp only [List.lookup, beq_eq_false_iff_ne, List.map_cons, List.mem_cons]
        rw [show (e == k) = false from beq_eq_false_iff_ne.mpr hk]
        simp [ih, hk]

lemma map_fst_registerCallback (m : List (String × List Callback)) (e : String) (cb : Callback) :
    (m.map (fun kv => if kv.1 = e then (kv.1, kv.2 ++ [cb]) else kv)).map Prod.fst =
      m.map Prod.fst := by
  induction m with
  | nil => rfl
  | cons kv rest ih =>
      by_cases h : kv.1 = e <;> simp [h, ih]

/-- C10: on any callback map whose keys are the five initialized event
names, `register_callback` succeeds exactly for those five names,
raises `ValueError` for anything else — in particular for
`post_retry_scheduled` — and never adds or removes keys. -/
theorem register_callback_accepts_exactly_five_events
    (m : List (String × List Callback)) (e : String) (cb : Callback)
    (hkeys : m.map Prod.fst =
      ["post_scheduled", "post_started", "post_completed", "post_failed", "error"]) :
    ((∃ m2, registerCallback m e cb = .ok m2) ↔
       e ∈ (["post_scheduled", "post_started", "post_completed", "post_failed",
             "error"] : List String)) ∧
    registerCallback m "post_retry_scheduled" cb =
      .error "Unknown event: post_retry_scheduled" ∧
    (∀ m2, registerCallback m e cb = .ok m2 → m2.map Prod.fst = m.map Prod.fst) := by
  have hfive : (m.lookup e).isSome = true ↔
      e ∈ (["post_scheduled", "post_started", "post_completed", "post_failed",
            "error"] : List String) := by
    rw [lookup_isSome_iff, hkeys]
  refine ⟨?_, ?_, ?_⟩
  · unfold registerCallback
    by_cases h : (m.lookup e).isSome = true
    · rw [if_pos h]
      exact ⟨fun _ => hfive.mp h, fun _ => ⟨_, rfl⟩⟩
    · rw [if_neg h]
      constructor
      · rintro ⟨m2, hm2⟩
        simp at hm2
      · intro he
        exact absurd (hfive.mpr he) h
  · have hne : ¬ ((m.lookup "post_retry_scheduled").isSome = true) := by
      rw [lookup_isSome_iff, hkeys]
      decide
    unfold registerCallback
    rw [if_neg hne]
    exact congrArg Except.error (by decide)
  · intro m2 hm2
    unfold registerCallback at hm2
    by_cases h : (m.lookup e).isSome = true
    · rw [if_pos h] at hm2
      injection hm2 with hm2
      subst hm2
      exact map_fst_registerCallback m e cb
    · rw [if_neg h] at hm2
      cases hm2

/-- Witness for C10 at the freshly initialized callback map. -/
theorem register_callback_accepts_exactly_five_events_witness :
    ((∃ m2, registerCallback initCallbacks "post_completed" cbOk = .ok m2) ↔
       "post_completed" ∈ (["post_scheduled", "post_started", "post_completed",
                            "post_failed", "error"] : List String)) ∧
    registerCallback initCallbacks "post_retry_scheduled" cbOk =
      .error "Unknown event: post_retry_scheduled" ∧
    (∀ m2, registerCallback initCallbacks "post_completed" cbOk = .ok m2 →
       m2.map Prod.fst = initCallbacks.map Prod.fst) :=
  register_callback_accepts_exactly_five_events initCallbacks "post_completed" cbOk rfl
